import Mathlib

set_option maxRecDepth 8000

/-!
Verification development for the 50-30-20 budget tracker (v7.1).

Money amounts are modelled as rationals; calendar dates as records of
year, month and day.  The Python datetime.date constructor is modelled
by mkDate, which fails exactly when the month or the day is out of
range, mirroring the ValueError raised by the library.  Balance
mutations performed by in-place loops in the dashboard are modelled as
pure functions from Budget to Budget following the loop structure of
the code.
-/

structure Date where
  year : Nat
  month : Nat
  day : Nat
deriving DecidableEq

def isLeap (y : Nat) : Bool := (y % 4 == 0 && y % 100 != 0) || (y % 400 == 0)

def daysInMonth (y m : Nat) : Nat :=
  if m = 2 then (if isLeap y then 29 else 28)
  else if m = 4 ∨ m = 6 ∨ m = 9 ∨ m = 11 then 30
  else 31

/-- Model of the datetime.date constructor: fails with ValueError exactly
when the month or the day is out of range for the given year and month. -/
def mkDate (y m d : Nat) : Except String Date :=
  if 1 ≤ m ∧ m ≤ 12 ∧ 1 ≤ d ∧ d ≤ daysInMonth y m then Except.ok ⟨y, m, d⟩
  else Except.error "ValueError"

/-- Days contributed by the months strictly before month m of year y. -/
def daysBeforeMonth (y m : Nat) : Nat := ((List.range' 1 (m - 1)).map (daysInMonth y)).sum

def leapsUpTo (y : Nat) : Nat := y / 4 - y / 100 + y / 400

/-- Rata-die style day count, used to model subtraction of dates
(the .days attribute of a timedelta). -/
def Date.toDays (d : Date) : Nat :=
  365 * (d.year - 1) + leapsUpTo (d.year - 1) + daysBeforeMonth d.year d.month + d.day

def dateDiff (a b : Date) : Int := (a.toDays : Int) - (b.toDays : Int)

structure Account where
  name : String
  type : String
  balance : ℚ := 0
  rate : ℚ := 0
deriving DecidableEq

structure CreditCard where
  name : String
  limit : ℚ
  cut_day : Nat
  pay_day : Nat
  balance : ℚ := 0
  cashback : ℚ := 0
deriving DecidableEq

structure Debt where
  name : String
  balance : ℚ
  rate : ℚ
  min_payment : ℚ
deriving DecidableEq

structure Transaction where
  date : Date
  amount : ℚ
  category : String
  subcat : String
  source : String
  recurrent : Bool := false
deriving DecidableEq

structure Goal where
  name : String
  target : ℚ
  deadline : Date
  saved : ℚ := 0
deriving DecidableEq

/-- Goal.months_left: max((deadline - TODAY).days // 30, 1); Python floor
division on integers is Int.fdiv. -/
def Goal.months_left (g : Goal) (today : Date) : Int :=
  max (Int.fdiv (dateDiff g.deadline today) 30) 1

/-- Goal.need_pm: max(target - saved, 0) / months_left(). -/
def Goal.need_pm (g : Goal) (today : Date) : ℚ :=
  max (g.target - g.saved) 0 / (g.months_left today : ℚ)

structure Budget where
  accounts : List Account := [⟨"Cuenta Nómina", "Débito", 0, 0⟩]
  cards : List CreditCard := [⟨"Banreservas", 0, 15, 5, 0, 0⟩]
  debts : List Debt := []
  incomes : List Transaction := []
  expenses : List Transaction := []
  goals : List Goal := []
deriving DecidableEq

/-- The helper _ym of the source: year and month of a transaction date. -/
def ym (d : Date) : Nat × Nat := (d.year, d.month)

/-- Budget._tot: sum of the amounts of the transactions of seq whose
year and month equal (y, m). -/
def Budget.tot (_self : Budget) (seq : List Transaction) (y m : Nat) : ℚ :=
  ((seq.filter (fun t => ym t.date = (y, m))).map Transaction.amount).sum

/-- Budget.cashflow_m: monthly incomes total minus monthly expenses total. -/
def Budget.cashflow_m (b : Budget) (y m : Nat) : ℚ :=
  b.tot b.incomes y m - b.tot b.expenses y m

/-- The income form handler: add the amount to every account whose name is
the selected source, subtract it from every card whose name is the selected
source, then append the new transaction. -/
def recordIncome (b : Budget) (idt : Date) (iam : ℚ) (icat isub src : String)
    (irec : Bool) : Budget :=
  { b with
    accounts := b.accounts.map
      (fun a => if a.name = src then { a with balance := a.balance + iam } else a),
    cards := b.cards.map
      (fun c => if c.name = src then { c with balance := c.balance - iam } else c),
    incomes := b.incomes ++ [⟨idt, iam, icat, isub, src, irec⟩] }

/-- The inner cash-back loop of the expense handler: add cb to the first
account of type Débito and stop. -/
def creditFirstDebit : List Account → ℚ → List Account
  | [], _ => []
  | a :: rest, cb =>
      if a.type = "Débito" then { a with balance := a.balance + cb } :: rest
      else a :: creditFirstDebit rest cb

/-- The card loop of the expense handler: every card whose name is the
source is charged the amount; if its cash-back rate is non-zero the
cash-back is subtracted from the card again and credited to the first
Débito account. -/
def processCards (src : String) (gam : ℚ) :
    List CreditCard → List Account → List CreditCard × List Account
  | [], accs => ([], accs)
  | c :: rest, accs =>
      if c.name = src then
        if c.cashback ≠ 0 then
          let cb := gam * c.cashback / 100
          let p := processCards src gam rest (creditFirstDebit accs cb)
          ({ c with balance := c.balance + gam - cb } :: p.1, p.2)
        else
          let p := processCards src gam rest accs
          ({ c with balance := c.balance + gam } :: p.1, p.2)
      else
        let p := processCards src gam rest accs
        (c :: p.1, p.2)

/-- The expense form handler: subtract the amount from every account whose
name is the source, then run the card loop, then append the transaction. -/
def recordExpense (b : Budget) (gdt : Date) (gam : ℚ) (gcat gsub src : String)
    (grec : Bool) : Budget :=
  let accounts1 := b.accounts.map
    (fun a => if a.name = src then { a with balance := a.balance - gam } else a)
  let p := processCards src gam b.cards accounts1
  { b with
    accounts := p.2,
    cards := p.1,
    expenses := b.expenses ++ [⟨gdt, gam, gcat, gsub, src, grec⟩] }

/-- One step of the income deletion loop: pop the transaction at idx and
reverse its balance effect on every matching account and card.  The
multiselect only offers valid indices, so the out-of-range case (which
would raise IndexError in Python) is modelled as a no-op. -/
def deleteIncomeAt (b : Budget) (idx : Nat) : Budget :=
  match b.incomes[idx]? with
  | none => b
  | some t =>
      { b with
        incomes := b.incomes.eraseIdx idx,
        accounts := b.accounts.map
          (fun a => if a.name = t.source then { a with balance := a.balance - t.amount } else a),
        cards := b.cards.map
          (fun c => if c.name = t.source then { c with balance := c.balance + t.amount } else c) }

/-- One step of the expense deletion loop, the mirror of deleteIncomeAt. -/
def deleteExpenseAt (b : Budget) (idx : Nat) : Budget :=
  match b.expenses[idx]? with
  | none => b
  | some t =>
      { b with
        expenses := b.expenses.eraseIdx idx,
        accounts := b.accounts.map
          (fun a => if a.name = t.source then { a with balance := a.balance + t.amount } else a),
        cards := b.cards.map
          (fun c => if c.name = t.source then { c with balance := c.balance - t.amount } else c) }

/-- sorted(xs, reverse=True): sort ascending and reverse. -/
def sortDesc (xs : List Nat) : List Nat := (List.insertionSort (· ≤ ·) xs).reverse

/-- The multiselect deletion of incomes: process the selected indices in
descending order. -/
def deleteIncomes (b : Budget) (to_del : List Nat) : Budget :=
  (sortDesc to_del).foldl deleteIncomeAt b

/-- The multiselect deletion of expenses: process the selected indices in
descending order. -/
def deleteExpenses (b : Budget) (to_del : List Nat) : Budget :=
  (sortDesc to_del).foldl deleteExpenseAt b

/-- The card payment reminder for one card: construct the pay date in the
current month (which can fail) and report a reminder when it is at most
five days away. -/
def cardReminder (today : Date) (c : CreditCard) : Except String (Option String) :=
  match mkDate today.year today.month c.pay_day with
  | Except.error e => Except.error e
  | Except.ok pay_date =>
      if 0 ≤ dateDiff pay_date today ∧ dateDiff pay_date today ≤ 5 then
        Except.ok (some c.name)
      else Except.ok none

/-- The reminder loop of the dashboard: the cards are visited in order and
a construction error aborts the whole computation, as the code has no
exception handler around the loop. -/
def cardReminders (today : Date) : List CreditCard → Except String (List String)
  | [] => Except.ok []
  | c :: rest =>
      match cardReminder today c with
      | Except.error e => Except.error e
      | Except.ok r =>
          match cardReminders today rest with
          | Except.error e => Except.error e
          | Except.ok rs =>
              Except.ok (match r with | some w => w :: rs | none => rs)

/-- The 12-month forecast value: sum of the cash-flows of calendar months
1..12 of year y, divided by 12. -/
def avg_cf (b : Budget) (y : Nat) : ℚ :=
  (((List.range' 1 12).map (fun i => b.cashflow_m y i)).sum) / 12

/-- The forecast series: twelve copies of the average cash-flow. -/
def forecastSeries (b : Budget) (y : Nat) : List ℚ :=
  List.replicate 12 (avg_cf b y)

/-- Uniqueness of names across accounts and cards, as assumed by the
claims about balance updates. -/
def Budget.namesUnique (b : Budget) : Prop :=
  (b.accounts.map Account.name ++ b.cards.map CreditCard.name).Nodup

instance (b : Budget) : Decidable b.namesUnique := by
  unfold Budget.namesUnique; infer_instance

/-- Sum of every stored balance, accounts and cards alike. -/
def sumBalances (b : Budget) : ℚ :=
  (b.accounts.map Account.balance).sum + (b.cards.map CreditCard.balance).sum

/-- Specification-side description of multi-index deletion: keep exactly
the entries whose position (counted from k) is not selected. -/
def keepIdxsFrom : List Transaction → List Nat → Nat → List Transaction
  | [], _, _ => []
  | t :: rest, idxs, k =>
      if k ∈ idxs then keepIdxsFrom rest idxs (k + 1)
      else t :: keepIdxsFrom rest idxs (k + 1)

/-- Sample Budget with three expenses, used to instantiate the multi-delete
claim on a concrete input. -/
def deleteExpensesSample : Budget :=
  ⟨[], [], [],
    [],
    [⟨⟨2024, 1, 1⟩, 1, "Needs", "Luz", "Z", false⟩,
     ⟨⟨2024, 1, 2⟩, 2, "Needs", "Renta", "Z", false⟩,
     ⟨⟨2024, 1, 3⟩, 3, "Needs", "Agua", "Z", false⟩],
    []⟩

/-!
Generic lemmas about the update-by-name loops.
-/

/-- Updating by name is the identity when no element bears the selected name. -/
theorem map_if_id {α : Type} (nm : α → String) (upd : α → α) (src : String) :
    ∀ l : List α, (∀ x ∈ l, nm x ≠ src) →
      l.map (fun x => if nm x = src then upd x else x) = l := by
  intro l h
  induction l with
  | nil => rfl
  | cons x xs ih =>
      simp only [List.map_cons]
      rw [if_neg (h x (List.mem_cons_self x xs)),
        ih (fun y hy => h y (List.mem_cons_of_mem _ hy))]

/-- Updating by name changes exactly the entry at the position of the unique
element bearing the selected name. -/
theorem map_if_upd {α : Type} (nm : α → String) (upd : α → α) (src : String) :
    ∀ (l : List α) (k : Nat) (a : α), (l.map nm).Nodup → l[k]? = some a → nm a = src →
      ((l.map fun x => if nm x = src then upd x else x)[k]? = some (upd a)) ∧
      ∀ i, i ≠ k → (l.map fun x => if nm x = src then upd x else x)[i]? = l[i]? := by
  intro l
  induction l with
  | nil => intro k a _ hk; simp at hk
  | cons x xs ih =>
      intro k a hnd hk hname
      rw [List.map_cons, List.nodup_cons] at hnd
      cases k with
      | zero =>
          rw [List.getElem?_cons_zero, Option.some.injEq] at hk
          subst hk
          have hxs : xs.map (fun y => if nm y = src then upd y else y) = xs := by
            refine map_if_id nm upd src xs ?_
            intro y hy hns
            exact hnd.1 (hname ▸ hns ▸ List.mem_map_of_mem nm hy)
          constructor
          · simp [hname]
          · intro i hi
            cases i with
            | zero => exact absurd rfl hi
            | succ j => simp [hxs]
      | succ k =>
          rw [List.getElem?_cons_succ] at hk
          have hmem : a ∈ xs := by
            obtain ⟨h, he⟩ := List.getElem?_eq_some.mp hk
            exact he ▸ List.getElem_mem h
          have hx : nm x ≠ src := by
            intro hxs
            exact hnd.1 (hxs ▸ hname ▸ List.mem_map_of_mem nm hmem)
          obtain ⟨ih1, ih2⟩ := ih k a hnd.2 hk hname
          constructor
          · rw [List.map_cons, List.getElem?_cons_succ]
            exact ih1
          · intro i hi
            cases i with
            | zero => simp [hx]
            | succ j =>
                rw [List.map_cons, List.getElem?_cons_succ, List.getElem?_cons_succ]
                exact ih2 j (fun hj => hi (by rw [hj]))

/-- The card loop leaves everything unchanged when no card bears the
selected name. -/
theorem processCards_no_match (src : String) (gam : ℚ) :
    ∀ (cs : List CreditCard) (accs : List Account), (∀ c ∈ cs, c.name ≠ src) →
      processCards src gam cs accs = (cs, accs) := by
  intro cs
  induction cs with
  | nil => intro accs _; rfl
  | cons c rest ih =>
      intro accs h
      have hrest := ih accs (fun x hx => h x (List.mem_cons_of_mem _ hx))
      simp only [processCards, if_neg (h c (List.mem_cons_self c rest)), hrest]

/-- The card loop on a list with a unique matching card having non-zero
cash-back: the matching card is charged the net amount and the cash-back is
routed to the account list once. -/
theorem processCards_match (src : String) (gam : ℚ) (card : CreditCard)
    (hname : card.name = src) (hcb : card.cashback ≠ 0) :
    ∀ (pre : List CreditCard), (∀ x ∈ pre, x.name ≠ src) →
    ∀ (post : List CreditCard), (∀ x ∈ post, x.name ≠ src) →
    ∀ (accs : List Account),
      processCards src gam (pre ++ card :: post) accs =
        (pre ++ { card with balance := card.balance + gam - gam * card.cashback / 100 } :: post,
         creditFirstDebit accs (gam * card.cashback / 100)) := by
  intro pre
  induction pre with
  | nil =>
      intro _ post hpost accs
      simp only [List.nil_append, processCards, if_pos hname, if_pos hcb,
        processCards_no_match src gam post _ hpost]
  | cons x pre ih =>
      intro hpre post hpost accs
      have hx := hpre x (List.mem_cons_self x pre)
      simp only [List.cons_append, processCards, if_neg hx, List.append_eq]
      rw [ih (fun y hy => hpre y (List.mem_cons_of_mem _ hy)) post hpost accs]

/-- The cash-back crediting loop is the identity when no account is of type
Débito. -/
theorem creditFirstDebit_no_debit (cb : ℚ) :
    ∀ accs : List Account, (∀ a ∈ accs, a.type ≠ "Débito") →
      creditFirstDebit accs cb = accs := by
  intro accs
  induction accs with
  | nil => intro _; rfl
  | cons a rest ih =>
      intro h
      simp only [creditFirstDebit, if_neg (h a (List.mem_cons_self a rest)),
        ih (fun x hx => h x (List.mem_cons_of_mem _ hx))]

/-- The cash-back crediting loop adds the cash-back to the first account of
type Débito and leaves every other account unchanged. -/
theorem creditFirstDebit_at_first (cb : ℚ) :
    ∀ (accs : List Account) (k : Nat) (a : Account),
      accs[k]? = some a → a.type = "Débito" →
      (∀ x ∈ accs.take k, x.type ≠ "Débito") →
      (creditFirstDebit accs cb)[k]? = some { a with balance := a.balance + cb } ∧
      ∀ i, i ≠ k → (creditFirstDebit accs cb)[i]? = accs[i]? := by
  intro accs
  induction accs with
  | nil => intro k a hk; simp at hk
  | cons x rest ih =>
      intro k a hk hdeb hfirst
      cases k with
      | zero =>
          rw [List.getElem?_cons_zero, Option.some.injEq] at hk
          subst hk
          constructor
          · simp [creditFirstDebit, hdeb]
          · intro i hi
            cases i with
            | zero => exact absurd rfl hi
            | succ j => simp [creditFirstDebit, hdeb]
      | succ k =>
          have hx : x.type ≠ "Débito" :=
            hfirst x (by rw [List.take_succ_cons]; exact List.mem_cons_self _ _)
          rw [List.getElem?_cons_succ] at hk
          obtain ⟨ih1, ih2⟩ := ih k a hk hdeb
            (fun y hy => hfirst y (by rw [List.take_succ_cons]; exact List.mem_cons_of_mem _ hy))
          constructor
          · simp only [creditFirstDebit, if_neg hx, List.getElem?_cons_succ]
            exact ih1
          · intro i hi
            cases i with
            | zero => simp [creditFirstDebit, hx]
            | succ j =>
                simp only [creditFirstDebit, if_neg hx, List.getElem?_cons_succ]
                exact ih2 j (fun hj => hi (by rw [hj]))

/-- With unique names, no account bears the name of a card. -/
theorem namesUnique_no_account {b : Budget} (hu : b.namesUnique) {card : CreditCard}
    (hc : card ∈ b.cards) : ∀ a ∈ b.accounts, a.name ≠ card.name := by
  intro a ha heq
  exact List.disjoint_of_nodup_append hu
    (List.mem_map_of_mem Account.name ha)
    (heq ▸ List.mem_map_of_mem CreditCard.name hc)

/-- With unique names, no card bears the name of an account. -/
theorem namesUnique_no_card {b : Budget} (hu : b.namesUnique) {a : Account}
    (ha : a ∈ b.accounts) : ∀ c ∈ b.cards, c.name ≠ a.name := by
  intro c hc heq
  exact List.disjoint_of_nodup_append hu
    (List.mem_map_of_mem Account.name ha)
    (heq ▸ List.mem_map_of_mem CreditCard.name hc)

/-- With unique names, a member card splits the card list into a prefix and
a suffix free of its name. -/
theorem namesUnique_cards_decomp {b : Budget} (hu : b.namesUnique) {card : CreditCard}
    (hc : card ∈ b.cards) :
    ∃ pre post, b.cards = pre ++ card :: post ∧
      (∀ x ∈ pre, x.name ≠ card.name) ∧ (∀ x ∈ post, x.name ≠ card.name) := by
  obtain ⟨pre, post, hsplit⟩ := List.append_of_mem hc
  have hnd : (b.cards.map CreditCard.name).Nodup := hu.of_append_right
  rw [hsplit, List.map_append, List.map_cons] at hnd
  refine ⟨pre, post, hsplit, ?_, ?_⟩
  · intro x hx heq
    exact List.disjoint_of_nodup_append hnd
      (List.mem_map_of_mem _ hx) (heq ▸ List.mem_cons_self _ _)
  · intro x hx heq
    have h2 := (List.nodup_append.mp hnd).2.1
    rw [List.nodup_cons] at h2
    exact h2.1 (heq ▸ List.mem_map_of_mem _ hx)

/-- C1: for a Budget with unique account and card names, recording an
expense of amount gam from the credit card named src whose cash-back rate
is non-zero appends exactly one expense transaction, raises the balance of
that card by gam - gam * rate / 100, and raises the balance of the first
account of type Débito by gam * rate / 100, leaving every other account
unchanged. -/
theorem recordExpense_cashback_correct
    (b : Budget) (gdt : Date) (gam : ℚ) (gcat gsub src : String) (grec : Bool)
    (card : CreditCard) (k : Nat) (a : Account)
    (hu : b.namesUnique) (hcard : card ∈ b.cards) (hname : card.name = src)
    (hcb : card.cashback ≠ 0)
    (ha : b.accounts[k]? = some a) (hdeb : a.type = "Débito")
    (hfirst : ∀ x ∈ b.accounts.take k, x.type ≠ "Débito") :
    (recordExpense b gdt gam gcat gsub src grec).expenses =
        b.expenses ++ [⟨gdt, gam, gcat, gsub, src, grec⟩] ∧
    (recordExpense b gdt gam gcat gsub src grec).cards =
        b.cards.map (fun c => if c.name = src then
          { c with balance := c.balance + gam - gam * c.cashback / 100 } else c) ∧
    (recordExpense b gdt gam gcat gsub src grec).accounts[k]? =
        some { a with balance := a.balance + gam * card.cashback / 100 } ∧
    ∀ i, i ≠ k → (recordExpense b gdt gam gcat gsub src grec).accounts[i]? = b.accounts[i]? := by
  have hnoacc : ∀ x ∈ b.accounts, x.name ≠ src :=
    fun x hx => hname ▸ namesUnique_no_account hu hcard x hx
  obtain ⟨pre, post, hsplit, hpre, hpost⟩ := namesUnique_cards_decomp hu hcard
  have hpre1 : ∀ x ∈ pre, x.name ≠ src := fun x hx => hname ▸ hpre x hx
  have hpost1 : ∀ x ∈ post, x.name ≠ src := fun x hx => hname ▸ hpost x hx
  have haccs1 : b.accounts.map
      (fun x => if x.name = src then { x with balance := x.balance - gam } else x) = b.accounts :=
    map_if_id _ _ _ _ hnoacc
  have hproc := processCards_match src gam card hname hcb pre hpre1 post hpost1 b.accounts
  have hcards_res : (recordExpense b gdt gam gcat gsub src grec).cards =
      pre ++ { card with balance := card.balance + gam - gam * card.cashback / 100 } :: post := by
    simp only [recordExpense, haccs1, hsplit, hproc]
  have haccs_res : (recordExpense b gdt gam gcat gsub src grec).accounts =
      creditFirstDebit b.accounts (gam * card.cashback / 100) := by
    simp only [recordExpense, haccs1, hsplit, hproc]
  obtain ⟨hfd1, hfd2⟩ :=
    creditFirstDebit_at_first (gam * card.cashback / 100) b.accounts k a ha hdeb hfirst
  refine ⟨rfl, ?_, ?_, ?_⟩
  · rw [hcards_res, hsplit, List.map_append, List.map_cons,
      map_if_id _ _ _ _ hpre1, map_if_id _ _ _ _ hpost1, if_pos hname]
  · rw [haccs_res]; exact hfd1
  · intro i hi; rw [haccs_res]; exact hfd2 i hi

/-- C1 witness: card C with cash-back 2 and balance 0, one Débito account D
with balance 0; an expense of 100 from C leaves the card at 98 and D at 2. -/
theorem recordExpense_cashback_correct_witness :
    (recordExpense ⟨[⟨"D", "Débito", 0, 0⟩], [⟨"C", 0, 15, 5, 0, 2⟩], [], [], [], []⟩
        ⟨2024, 3, 15⟩ 100 "Needs" "Renta" "C" false).accounts[0]? =
      some ⟨"D", "Débito", 2, 0⟩ ∧
    (recordExpense ⟨[⟨"D", "Débito", 0, 0⟩], [⟨"C", 0, 15, 5, 0, 2⟩], [], [], [], []⟩
        ⟨2024, 3, 15⟩ 100 "Needs" "Renta" "C" false).cards =
      [⟨"C", 0, 15, 5, 98, 2⟩] := by
  have h := recordExpense_cashback_correct
    ⟨[⟨"D", "Débito", 0, 0⟩], [⟨"C", 0, 15, 5, 0, 2⟩], [], [], [], []⟩
    ⟨2024, 3, 15⟩ 100 "Needs" "Renta" "C" false
    ⟨"C", 0, 15, 5, 0, 2⟩ 0 ⟨"D", "Débito", 0, 0⟩
    (by decide) (by decide) rfl (by decide) rfl rfl (by decide)
  refine ⟨h.2.2.1.trans ?_, h.2.1.trans ?_⟩
  · norm_num
  · simp only [List.map_cons, List.map_nil, if_pos]
    norm_num

/-- C10: for a Budget with unique names and no account of type Débito,
recording an expense from a card with non-zero cash-back still raises the
card balance only by gam - gam * rate / 100 while crediting no account:
the accounts are untouched and the sum of all stored balances changes by
gam - gam * rate / 100, missing the cash-back amount. -/
theorem recordExpense_cashback_no_debit
    (b : Budget) (gdt : Date) (gam : ℚ) (gcat gsub src : String) (grec : Bool)
    (card : CreditCard)
    (hu : b.namesUnique) (hcard : card ∈ b.cards) (hname : card.name = src)
    (hcb : card.cashback ≠ 0)
    (hnodeb : ∀ a ∈ b.accounts, a.type ≠ "Débito") :
    (recordExpense b gdt gam gcat gsub src grec).accounts = b.accounts ∧
    (recordExpense b gdt gam gcat gsub src grec).cards =
        b.cards.map (fun c => if c.name = src then
          { c with balance := c.balance + gam - gam * c.cashback / 100 } else c) ∧
    (recordExpense b gdt gam gcat gsub src grec).expenses =
        b.expenses ++ [⟨gdt, gam, gcat, gsub, src, grec⟩] ∧
    sumBalances (recordExpense b gdt gam gcat gsub src grec) =
        sumBalances b + (gam - gam * card.cashback / 100) := by
  have hnoacc : ∀ x ∈ b.accounts, x.name ≠ src :=
    fun x hx => hname ▸ namesUnique_no_account hu hcard x hx
  obtain ⟨pre, post, hsplit, hpre, hpost⟩ := namesUnique_cards_decomp hu hcard
  have hpre1 : ∀ x ∈ pre, x.name ≠ src := fun x hx => hname ▸ hpre x hx
  have hpost1 : ∀ x ∈ post, x.name ≠ src := fun x hx => hname ▸ hpost x hx
  have haccs1 : b.accounts.map
      (fun x => if x.name = src then { x with balance := x.balance - gam } else x) = b.accounts :=
    map_if_id _ _ _ _ hnoacc
  have hproc := processCards_match src gam card hname hcb pre hpre1 post hpost1 b.accounts
  have hcards_res : (recordExpense b gdt gam gcat gsub src grec).cards =
      pre ++ { card with balance := card.balance + gam - gam * card.cashback / 100 } :: post := by
    simp only [recordExpense, haccs1, hsplit, hproc]
  have haccs_res : (recordExpense b gdt gam gcat gsub src grec).accounts = b.accounts := by
    simp only [recordExpense, haccs1, hsplit, hproc]
    exact creditFirstDebit_no_debit _ _ hnodeb
  refine ⟨haccs_res, ?_, rfl, ?_⟩
  · rw [hcards_res, hsplit, List.map_append, List.map_cons,
      map_if_id _ _ _ _ hpre1, map_if_id _ _ _ _ hpost1, if_pos hname]
  · rw [sumBalances, sumBalances, haccs_res, hcards_res, hsplit]
    simp only [List.map_append, List.map_cons, List.sum_append, List.sum_cons]
    ring

/-- C10 witness: no Débito account exists; the expense of 100 from card C
with cash-back 2 leaves the single investment account untouched and the
total of balances grows by 98 instead of 100. -/
theorem recordExpense_cashback_no_debit_witness :
    (recordExpense ⟨[⟨"E", "Inversión", 5, 0⟩], [⟨"C", 0, 15, 5, 0, 2⟩], [], [], [], []⟩
        ⟨2024, 3, 15⟩ 100 "Needs" "Renta" "C" false).accounts = [⟨"E", "Inversión", 5, 0⟩] ∧
    sumBalances (recordExpense ⟨[⟨"E", "Inversión", 5, 0⟩], [⟨"C", 0, 15, 5, 0, 2⟩], [], [], [], []⟩
        ⟨2024, 3, 15⟩ 100 "Needs" "Renta" "C" false) =
      sumBalances ⟨[⟨"E", "Inversión", 5, 0⟩], [⟨"C", 0, 15, 5, 0, 2⟩], [], [], [], []⟩ + 98 := by
  have h := recordExpense_cashback_no_debit
    ⟨[⟨"E", "Inversión", 5, 0⟩], [⟨"C", 0, 15, 5, 0, 2⟩], [], [], [], []⟩
    ⟨2024, 3, 15⟩ 100 "Needs" "Renta" "C" false
    ⟨"C", 0, 15, 5, 0, 2⟩
    (by decide) (by decide) rfl (by decide) (by decide)
  refine ⟨h.1, h.2.2.2.trans ?_⟩
  norm_num

/-- C5: for a Budget with unique account and card names, recording an
income of amount iam appends exactly one transaction; when the source
names the account at position k, that account gains exactly iam while
every other account and every card is unchanged; when the source names
the card at position k, that card loses exactly iam while every other
card and every account is unchanged. -/
theorem recordIncome_balance_update
    (b : Budget) (idt : Date) (iam : ℚ) (icat isub src : String) (irec : Bool)
    (hu : b.namesUnique) :
    (recordIncome b idt iam icat isub src irec).incomes =
        b.incomes ++ [⟨idt, iam, icat, isub, src, irec⟩] ∧
    (∀ (k : Nat) (a : Account), b.accounts[k]? = some a → a.name = src →
      (recordIncome b idt iam icat isub src irec).accounts[k]? =
          some { a with balance := a.balance + iam } ∧
      (∀ i, i ≠ k → (recordIncome b idt iam icat isub src irec).accounts[i]? = b.accounts[i]?) ∧
      (recordIncome b idt iam icat isub src irec).cards = b.cards) ∧
    (∀ (k : Nat) (c : CreditCard), b.cards[k]? = some c → c.name = src →
      (recordIncome b idt iam icat isub src irec).cards[k]? =
          some { c with balance := c.balance - iam } ∧
      (∀ i, i ≠ k → (recordIncome b idt iam icat isub src irec).cards[i]? = b.cards[i]?) ∧
      (recordIncome b idt iam icat isub src irec).accounts = b.accounts) := by
  refine ⟨rfl, ?_, ?_⟩
  · intro k a hk hname
    have hmem : a ∈ b.accounts := by
      obtain ⟨h, he⟩ := List.getElem?_eq_some.mp hk
      exact he ▸ List.getElem_mem h
    obtain ⟨h1, h2⟩ := map_if_upd Account.name
      (fun x => { x with balance := x.balance + iam }) src b.accounts k a
      hu.of_append_left hk hname
    exact ⟨h1, h2, map_if_id _ _ _ _
      (fun c hc => hname ▸ namesUnique_no_card hu hmem c hc)⟩
  · intro k c hk hname
    have hmem : c ∈ b.cards := by
      obtain ⟨h, he⟩ := List.getElem?_eq_some.mp hk
      exact he ▸ List.getElem_mem h
    obtain ⟨h1, h2⟩ := map_if_upd CreditCard.name
      (fun x => { x with balance := x.balance - iam }) src b.cards k c
      hu.of_append_right hk hname
    exact ⟨h1, h2, map_if_id _ _ _ _
      (fun a ha => hname ▸ namesUnique_no_account hu hmem a ha)⟩

/-- C5 witness: an income of 50 to account D raises D from 0 to 50 and
leaves the card list unchanged; an income of 50 to card C lowers C from 0
to -50 and leaves the accounts unchanged. -/
theorem recordIncome_balance_update_witness :
    (recordIncome ⟨[⟨"D", "Débito", 0, 0⟩], [⟨"C", 0, 15, 5, 0, 2⟩], [], [], [], []⟩
        ⟨2024, 3, 10⟩ 50 "Salario" "General" "D" false).accounts[0]? =
      some ⟨"D", "Débito", 50, 0⟩ ∧
    (recordIncome ⟨[⟨"D", "Débito", 0, 0⟩], [⟨"C", 0, 15, 5, 0, 2⟩], [], [], [], []⟩
        ⟨2024, 3, 10⟩ 50 "Salario" "General" "D" false).cards =
      [⟨"C", 0, 15, 5, 0, 2⟩] ∧
    (recordIncome ⟨[⟨"D", "Débito", 0, 0⟩], [⟨"C", 0, 15, 5, 0, 2⟩], [], [], [], []⟩
        ⟨2024, 3, 10⟩ 50 "Salario" "General" "C" false).cards[0]? =
      some ⟨"C", 0, 15, 5, -50, 2⟩ := by
  have h := recordIncome_balance_update
    ⟨[⟨"D", "Débito", 0, 0⟩], [⟨"C", 0, 15, 5, 0, 2⟩], [], [], [], []⟩
    ⟨2024, 3, 10⟩ 50 "Salario" "General" "D" false (by decide)
  have hD := h.2.1 0 ⟨"D", "Débito", 0, 0⟩ rfl rfl
  have h2 := recordIncome_balance_update
    ⟨[⟨"D", "Débito", 0, 0⟩], [⟨"C", 0, 15, 5, 0, 2⟩], [], [], [], []⟩
    ⟨2024, 3, 10⟩ 50 "Salario" "General" "C" false (by decide)
  have hC := h2.2.2 0 ⟨"C", 0, 15, 5, 0, 2⟩ rfl rfl
  refine ⟨hD.1.trans ?_, hD.2.2, hC.1.trans ?_⟩
  · norm_num
  · norm_num

/-- Erasing the index just past a list removes exactly the appended element. -/
theorem eraseIdx_concat_self {α : Type} (l : List α) (a : α) :
    (l ++ [a]).eraseIdx l.length = l := by
  rw [List.eraseIdx_eq_take_drop_succ, List.take_left, List.drop_eq_nil_of_le, List.append_nil]
  simp

/-- Adding iam to the accounts matching a name and then subtracting iam from
the accounts matching the same name is the identity. -/
theorem map_if_roundtrip_acc (src : String) (iam : ℚ) :
    ∀ l : List Account,
      ((l.map fun a => if a.name = src then { a with balance := a.balance + iam } else a).map
        fun a => if a.name = src then { a with balance := a.balance - iam } else a) = l := by
  intro l
  induction l with
  | nil => rfl
  | cons x xs ih =>
      obtain ⟨nm, tp, bal, rt⟩ := x
      simp only [List.map_cons, ih]
      by_cases h : nm = src
      · simp [h, add_sub_cancel_right]
      · simp [h]

/-- Subtracting iam from the cards matching a name and then adding iam to
the cards matching the same name is the identity. -/
theorem map_if_roundtrip_card (src : String) (iam : ℚ) :
    ∀ l : List CreditCard,
      ((l.map fun c => if c.name = src then { c with balance := c.balance - iam } else c).map
        fun c => if c.name = src then { c with balance := c.balance + iam } else c) = l := by
  intro l
  induction l with
  | nil => rfl
  | cons x xs ih =>
      obtain ⟨nm, lim, cd, pd, bal, cb⟩ := x
      simp only [List.map_cons, ih]
      by_cases h : nm = src
      · simp [h, sub_add_cancel]
      · simp [h]

/-- C3: for a Budget with unique names in which the source name exists,
recording an income and then deleting the transaction just recorded
restores the Budget exactly: every balance and every list returns to its
previous value. -/
theorem recordIncome_then_delete_id
    (b : Budget) (idt : Date) (iam : ℚ) (icat isub src : String) (irec : Bool)
    (hu : b.namesUnique)
    (hex : (∃ a ∈ b.accounts, a.name = src) ∨ (∃ c ∈ b.cards, c.name = src)) :
    deleteIncomes (recordIncome b idt iam icat isub src irec) [b.incomes.length] = b := by
  obtain ⟨accs, cards, debts, incs, exps, goals⟩ := b
  have hsort : sortDesc [incs.length] = [incs.length] := rfl
  rw [deleteIncomes, hsort, List.foldl_cons, List.foldl_nil]
  have hget : (incs ++ [(⟨idt, iam, icat, isub, src, irec⟩ : Transaction)])[incs.length]? =
      some ⟨idt, iam, icat, isub, src, irec⟩ := List.getElem?_concat_length _ _
  simp only [deleteIncomeAt, recordIncome, hget, eraseIdx_concat_self,
    map_if_roundtrip_acc, map_if_roundtrip_card]

/-- C3 witness: recording an income of 50 to account D of a two-entity
Budget and deleting it restores the original Budget. -/
theorem recordIncome_then_delete_id_witness :
    deleteIncomes (recordIncome ⟨[⟨"D", "Débito", 10, 0⟩], [⟨"C", 0, 15, 5, 0, 2⟩], [], [], [], []⟩
        ⟨2024, 3, 10⟩ 50 "Salario" "General" "D" false) [0] =
      ⟨[⟨"D", "Débito", 10, 0⟩], [⟨"C", 0, 15, 5, 0, 2⟩], [], [], [], []⟩ :=
  recordIncome_then_delete_id _ _ _ _ _ _ _ (by decide)
    (Or.inl ⟨⟨"D", "Débito", 10, 0⟩, by decide, rfl⟩)

/-- C4: deleting the income at a valid index whose stored source name
matches no current account and no current card removes exactly that
transaction and leaves every balance, the accounts, the cards and the
expense list unchanged. -/
theorem deleteIncome_dangling_frame
    (b : Budget) (i : Nat) (t : Transaction)
    (ht : b.incomes[i]? = some t)
    (hA : ∀ a ∈ b.accounts, a.name ≠ t.source)
    (hC : ∀ c ∈ b.cards, c.name ≠ t.source) :
    (deleteIncomes b [i]).incomes = b.incomes.take i ++ b.incomes.drop (i + 1) ∧
    (deleteIncomes b [i]).accounts = b.accounts ∧
    (deleteIncomes b [i]).cards = b.cards ∧
    (deleteIncomes b [i]).expenses = b.expenses := by
  have hsort : sortDesc [i] = [i] := rfl
  rw [deleteIncomes, hsort, List.foldl_cons, List.foldl_nil]
  simp only [deleteIncomeAt, ht]
  exact ⟨List.eraseIdx_eq_take_drop_succ _ _, map_if_id _ _ _ _ hA,
    map_if_id _ _ _ _ hC, trivial⟩

/-- C4 witness: the only income references the vanished source GONE, so
deleting it empties the income list and leaves account D at 7 and card C
at 3. -/
theorem deleteIncome_dangling_frame_witness :
    (deleteIncomes ⟨[⟨"D", "Débito", 7, 0⟩], [⟨"C", 0, 15, 5, 3, 2⟩], [],
        [⟨⟨2024, 3, 10⟩, 50, "Salario", "General", "GONE", false⟩], [], []⟩ [0]).incomes = [] ∧
    (deleteIncomes ⟨[⟨"D", "Débito", 7, 0⟩], [⟨"C", 0, 15, 5, 3, 2⟩], [],
        [⟨⟨2024, 3, 10⟩, 50, "Salario", "General", "GONE", false⟩], [], []⟩ [0]).accounts =
      [⟨"D", "Débito", 7, 0⟩] ∧
    (deleteIncomes ⟨[⟨"D", "Débito", 7, 0⟩], [⟨"C", 0, 15, 5, 3, 2⟩], [],
        [⟨⟨2024, 3, 10⟩, 50, "Salario", "General", "GONE", false⟩], [], []⟩ [0]).cards =
      [⟨"C", 0, 15, 5, 3, 2⟩] := by
  have h := deleteIncome_dangling_frame
    ⟨[⟨"D", "Débito", 7, 0⟩], [⟨"C", 0, 15, 5, 3, 2⟩], [],
      [⟨⟨2024, 3, 10⟩, 50, "Salario", "General", "GONE", false⟩], [], []⟩ 0
    ⟨⟨2024, 3, 10⟩, 50, "Salario", "General", "GONE", false⟩ rfl (by decide) (by decide)
  exact ⟨h.1, h.2.1, h.2.2.1⟩

/-- C2: the reminder loop does not catch the date construction failure.
With today 2025-02-10 and a card whose pay day is 31, constructing the
February pay date fails and the whole reminder computation aborts with
ValueError instead of producing no reminder for that card. -/
theorem cardReminders_payday_overflow_error :
    cardReminders ⟨2025, 2, 10⟩ [⟨"C", 0, 15, 31, 0, 0⟩] = Except.error "ValueError" := rfl

/-- C9: need_pm equals max(target - saved, 0) divided by max(months_left, 1),
the divisor months_left is always at least one, and the result is never
negative, for every goal and every current date, past deadlines included. -/
theorem need_pm_safe (g : Goal) (today : Date) :
    g.need_pm today = max (g.target - g.saved) 0 / ((max (g.months_left today) 1 : ℤ) : ℚ) ∧
    1 ≤ g.months_left today ∧
    0 ≤ g.need_pm today := by
  have h1 : 1 ≤ g.months_left today := le_max_right _ _
  refine ⟨?_, h1, ?_⟩
  · rw [Goal.need_pm, max_eq_left h1]
  · apply div_nonneg (le_max_right _ _)
    have h0 : (0 : ℤ) ≤ g.months_left today := le_trans zero_le_one h1
    exact_mod_cast h0

/-- C6: the monthly total sums exactly the transactions whose year and
month match the given pair, so a transaction of another month contributes
nothing; the cash-flow is the income total minus the expense total; and on
a freshly created Budget both are zero for every month. -/
theorem monthlyTotal_cashflow_correct (b : Budget) (seq : List Transaction) (y m : Nat) :
    b.tot seq y m =
      ((seq.filter fun t => t.date.year = y ∧ t.date.month = m).map Transaction.amount).sum ∧
    (∀ t : Transaction, ym t.date ≠ (y, m) → b.tot (seq ++ [t]) y m = b.tot seq y m) ∧
    b.cashflow_m y m = b.tot b.incomes y m - b.tot b.expenses y m ∧
    ({} : Budget).tot ({} : Budget).incomes y m = 0 ∧
    ({} : Budget).tot ({} : Budget).expenses y m = 0 ∧
    ({} : Budget).cashflow_m y m = 0 := by
  refine ⟨?_, ?_, rfl, rfl, rfl, ?_⟩
  · have h : seq.filter (fun t => ym t.date = (y, m)) =
        seq.filter (fun t => t.date.year = y ∧ t.date.month = m) :=
      List.filter_congr (fun t _ => by simp [ym, Prod.ext_iff])
    rw [Budget.tot, h]
  · intro t ht
    simp [Budget.tot, List.filter_append, ht]
  · simp [Budget.cashflow_m, Budget.tot]

/-- C6 witness: with one March transaction in the list, appending an April
transaction leaves the March total unchanged. -/
theorem monthlyTotal_cashflow_correct_witness :
    ym (⟨2024, 4, 2⟩ : Date) ≠ ((2024, 3) : Nat × Nat) ∧
    ({} : Budget).tot
        ([⟨⟨2024, 3, 10⟩, 1000, "Salario", "General", "A", false⟩] ++
          [⟨⟨2024, 4, 2⟩, 400, "Needs", "Renta", "A", false⟩]) 2024 3 =
      ({} : Budget).tot [⟨⟨2024, 3, 10⟩, 1000, "Salario", "General", "A", false⟩] 2024 3 :=
  ⟨by decide,
    (monthlyTotal_cashflow_correct {}
        [⟨⟨2024, 3, 10⟩, 1000, "Salario", "General", "A", false⟩] 2024 3).2.1
      ⟨⟨2024, 4, 2⟩, 400, "Needs", "Renta", "A", false⟩ (by decide)⟩

/-- C7: the 12-month forecast value is the average of the cash-flows of
the twelve calendar months 1..12 of the given year, and the forecast
series is twelve entries each equal to that single average. -/
theorem forecast_avg_correct (b : Budget) (y : Nat) :
    avg_cf b y = (∑ m in Finset.Icc 1 12, b.cashflow_m y m) / 12 ∧
    forecastSeries b y = List.replicate 12 (avg_cf b y) ∧
    (forecastSeries b y).length = 12 ∧
    ∀ x ∈ forecastSeries b y, x = avg_cf b y := by
  refine ⟨rfl, rfl, rfl, ?_⟩
  intro x hx
  exact List.eq_of_mem_replicate hx

/-- Keeping-by-position is the identity when every selected index lies
below the running offset. -/
theorem keepIdxsFrom_all_lt : ∀ (l : List Transaction) (idxs : List Nat) (k : Nat),
    (∀ i ∈ idxs, i < k) → keepIdxsFrom l idxs k = l := by
  intro l
  induction l with
  | nil => intro idxs k _; rfl
  | cons t rest ih =>
      intro idxs k h
      have hk : k ∉ idxs := fun hmem => lt_irrefl k (h k hmem)
      simp only [keepIdxsFrom, if_neg hk,
        ih idxs (k + 1) (fun i hi => Nat.lt_succ_of_lt (h i hi))]

/-- Keeping-by-position distributes over append, shifting the offset. -/
theorem keepIdxsFrom_append : ∀ (A B : List Transaction) (idxs : List Nat) (k : Nat),
    keepIdxsFrom (A ++ B) idxs k = keepIdxsFrom A idxs k ++ keepIdxsFrom B idxs (k + A.length) := by
  intro A
  induction A with
  | nil => intro B idxs k; simp [keepIdxsFrom]
  | cons t A ih =>
      intro B idxs k
      have harith : k + 1 + A.length = k + (A.length + 1) := by omega
      simp only [List.cons_append, keepIdxsFrom, List.length_cons, List.append_eq]
      by_cases h : k ∈ idxs
      · rw [if_pos h, if_pos h, ih B idxs (k + 1), harith]
      · rw [if_neg h, if_neg h, ih B idxs (k + 1), List.cons_append, harith]

/-- Keeping-by-position only depends on which offsets are selected. -/
theorem keepIdxsFrom_congr : ∀ (A : List Transaction) (ds ds2 : List Nat) (k : Nat),
    (∀ j, k ≤ j → j < k + A.length → (j ∈ ds ↔ j ∈ ds2)) →
    keepIdxsFrom A ds k = keepIdxsFrom A ds2 k := by
  intro A
  induction A with
  | nil => intro ds ds2 k _; rfl
  | cons t A ih =>
      intro ds ds2 k h
      have hk : k ∈ ds ↔ k ∈ ds2 := h k le_rfl (by simp)
      have hrec := ih ds ds2 (k + 1)
        (fun j hj1 hj2 => h j (by omega) (by simp only [List.length_cons]; omega))
      simp only [keepIdxsFrom]
      by_cases hmem : k ∈ ds
      · rw [if_pos hmem, if_pos (hk.mp hmem), hrec]
      · rw [if_neg hmem, if_neg (fun hc => hmem (hk.mpr hc)), hrec]

/-- Erasing a strictly descending list of indices, all inside the left part
of an append, never touches the right part. -/
theorem foldl_eraseIdx_append : ∀ (ds : List Nat) (A B : List Transaction),
    List.Pairwise (· > ·) ds → (∀ i ∈ ds, i < A.length) →
    ds.foldl (fun acc i => acc.eraseIdx i) (A ++ B) =
      ds.foldl (fun acc i => acc.eraseIdx i) A ++ B := by
  intro ds
  induction ds with
  | nil => intro A B _ _; rfl
  | cons d rest ih =>
      intro A B hp hb
      rw [List.pairwise_cons] at hp
      have hdA : d < A.length := hb d (List.mem_cons_self d rest)
      rw [List.foldl_cons, List.foldl_cons, List.eraseIdx_append_of_lt_length hdA]
      refine ih (A.eraseIdx d) B hp.2 ?_
      intro i hi
      have h1 : i < d := hp.1 i hi
      rw [List.length_eraseIdx, if_pos hdA]
      omega

/-- Erasing a strictly descending list of valid indices removes exactly the
entries at the selected original positions. -/
theorem foldl_eraseIdx_keep : ∀ (ds : List Nat) (l : List Transaction),
    List.Pairwise (· > ·) ds → (∀ i ∈ ds, i < l.length) →
    ds.foldl (fun acc i => acc.eraseIdx i) l = keepIdxsFrom l ds 0 := by
  intro ds
  induction ds with
  | nil =>
      intro l _ _
      exact (keepIdxsFrom_all_lt l [] 0 (by simp)).symm
  | cons d rest ih =>
      intro l hp hb
      rw [List.pairwise_cons] at hp
      have hd : d < l.length := hb d (List.mem_cons_self d rest)
      have hlen_take : (l.take d).length = d := by
        rw [List.length_take, min_eq_left (le_of_lt hd)]
      have hbtake : ∀ i ∈ rest, i < (l.take d).length := by
        intro i hi; rw [hlen_take]; exact hp.1 i hi
      rw [List.foldl_cons, List.eraseIdx_eq_take_drop_succ,
        foldl_eraseIdx_append rest (l.take d) (l.drop (d + 1)) hp.2 hbtake,
        ih (l.take d) hp.2 hbtake]
      have hsplit : l = l.take d ++ l[d] :: l.drop (d + 1) := by
        rw [List.getElem_cons_drop l d hd, List.take_append_drop]
      conv_rhs => rw [hsplit]
      rw [keepIdxsFrom_append, hlen_take, Nat.zero_add]
      have hcons : keepIdxsFrom (l[d] :: l.drop (d + 1)) (d :: rest) d = l.drop (d + 1) := by
        simp only [keepIdxsFrom, if_pos (List.mem_cons_self d rest)]
        refine keepIdxsFrom_all_lt _ _ _ ?_
        intro i hi
        rcases List.mem_cons.mp hi with h | h
        · omega
        · have := hp.1 i h; omega
      rw [hcons]
      have htake : keepIdxsFrom (l.take d) (d :: rest) 0 = keepIdxsFrom (l.take d) rest 0 := by
        refine keepIdxsFrom_congr _ _ _ _ ?_
        intro j _ hj2
        rw [hlen_take, Nat.zero_add] at hj2
        simp only [List.mem_cons]
        constructor
        · rintro (h | h)
          · omega
          · exact h
        · exact fun h => Or.inr h
      rw [htake]

/-- Sorting descending preserves membership. -/
theorem mem_sortDesc (xs : List Nat) (i : Nat) : i ∈ sortDesc xs ↔ i ∈ xs := by
  rw [sortDesc, List.mem_reverse]
  exact (List.perm_insertionSort _ xs).mem_iff

/-- Sorting a duplicate-free list descending yields a strictly descending
list. -/
theorem sortDesc_pairwise (xs : List Nat) (h : xs.Nodup) :
    List.Pairwise (· > ·) (sortDesc xs) := by
  have hperm := List.perm_insertionSort (· ≤ ·) xs
  have hnd : (List.insertionSort (· ≤ ·) xs).Nodup := hperm.symm.nodup h
  have hsorted : List.Pairwise (· ≤ ·) (List.insertionSort (· ≤ ·) xs) :=
    List.sorted_insertionSort (· ≤ ·) xs
  have hlt : List.Pairwise (· < ·) (List.insertionSort (· ≤ ·) xs) :=
    (hsorted.and hnd).imp (fun hab => lt_of_le_of_ne hab.1 hab.2)
  exact List.pairwise_reverse.mpr hlt

/-- The expense list evolves through the deletion loop exactly by erasing
the visited indices; the balance updates never touch it. -/
theorem foldl_deleteExpenseAt_expenses : ∀ (ds : List Nat) (b : Budget),
    (ds.foldl deleteExpenseAt b).expenses =
      ds.foldl (fun l i => l.eraseIdx i) b.expenses := by
  intro ds
  induction ds with
  | nil => intro b; rfl
  | cons d rest ih =>
      intro b
      have h : (deleteExpenseAt b d).expenses = b.expenses.eraseIdx d := by
        cases hg : b.expenses[d]? with
        | some t => simp [deleteExpenseAt, hg]
        | none =>
            have hlen : b.expenses.length ≤ d := by
              by_contra hcon
              push_neg at hcon
              rw [List.getElem?_eq_getElem hcon] at hg
              cases hg
            have herase : b.expenses.eraseIdx d = b.expenses := by
              rw [List.eraseIdx_eq_take_drop_succ, List.take_of_length_le hlen,
                List.drop_eq_nil_of_le (by omega), List.append_nil]
            simp [deleteExpenseAt, hg, herase]
      rw [List.foldl_cons, List.foldl_cons, ih (deleteExpenseAt b d), h]

/-- C8: the multiselect deletion applies the removals in descending index
order, so for a duplicate-free selection of valid indices the entries
removed are exactly those originally at the selected positions: the
surviving list keeps exactly the entries whose original position was not
selected. -/
theorem deleteExpenses_removes_selected (b : Budget) (idxs : List Nat)
    (hnd : idxs.Nodup) (hbound : ∀ i ∈ idxs, i < b.expenses.length) :
    (deleteExpenses b idxs).expenses = keepIdxsFrom b.expenses idxs 0 := by
  rw [deleteExpenses, foldl_deleteExpenseAt_expenses,
    foldl_eraseIdx_keep (sortDesc idxs) b.expenses (sortDesc_pairwise idxs hnd)
      (fun i hi => hbound i ((mem_sortDesc idxs i).mp hi))]
  exact keepIdxsFrom_congr b.expenses (sortDesc idxs) idxs 0
    (fun j _ _ => mem_sortDesc idxs j)

/-- C8 witness: deleting indices 0 and 2 from a three-entry expense list
leaves exactly the entry originally at position 1. -/
theorem deleteExpenses_removes_selected_witness :
    ([0, 2] : List Nat).Nodup ∧
    (∀ i ∈ ([0, 2] : List Nat), i <
      (deleteExpensesSample : Budget).expenses.length) ∧
    (deleteExpenses deleteExpensesSample [0, 2]).expenses =
      keepIdxsFrom deleteExpensesSample.expenses [0, 2] 0 ∧
    keepIdxsFrom deleteExpensesSample.expenses [0, 2] 0 =
      [⟨⟨2024, 1, 2⟩, 2, "Needs", "Renta", "Z", false⟩] :=
  ⟨by decide, by decide,
    deleteExpenses_removes_selected deleteExpensesSample [0, 2] (by decide) (by decide),
    by decide⟩
